import Mathlib

set_option maxRecDepth 40000
set_option maxHeartbeats 1000000

/-!
Verification of the vector-text stroke-font engine: a shallow embedding of
the three font decoders (Borland CHR, Hershey, NewStroke), the per-format
text renderers, and the auxiliary mapping loaders, together with proofs of
the specified properties.

Machine integers are modelled as `Int`/`Nat` with explicit wraparound where
the source performs fixed-width arithmetic (`i8`, `i16`, `u16` casts in
release semantics); fallible operations (panics, `expect`, out-of-bounds
indexing) are modelled with `Option`, `none` standing for a panic.
-/

/-- Reinterpretation of an integer as a signed 8-bit value (`as i8`). -/
def wrap8 (z : Int) : Int := (z + 128) % 256 - 128

/-- Reinterpretation of an integer as a signed 16-bit value (`i16` arithmetic). -/
def wrap16 (z : Int) : Int := (z + 32768) % 65536 - 32768

/-- `vector_text_core::PackedPoint`: a stroke vertex in glyph-local `i8` space. -/
structure PackedPoint where
  x : Int
  y : Int
  pen : Bool
  deriving DecidableEq, Repr

/-- `vector_text_core::Glyph`: side-bearings plus the stroke sequence. -/
structure Glyph where
  left : Int
  right : Int
  strokes : List PackedPoint
  deriving DecidableEq, Repr

/-- `vector_text_core::Point`: renderer output vertex in `i16` space. -/
structure Point where
  x : Int
  y : Int
  pen : Bool
  deriving DecidableEq, Repr

/-- One glyph's contribution to the rendered output: the body of the
`result.extend(glyph.strokes.iter().map(...))` call in `render_text`,
with `x = point.x - glyph.left + x_idx` computed in `i16`. -/
def renderChar (g : Glyph) (xIdx : Int) : List Point :=
  g.strokes.map (fun p => { x := wrap16 (p.x - g.left + xIdx), y := p.y, pen := p.pen })

/-- The character loop shared by `BorlandRenderer::render_text` and
`NewstrokeRenderer::render_text`: `table[character as usize]` panics
(modelled as `none`) when the codepoint is not below the table length;
a `None` slot is skipped; a `Some` glyph contributes its translated
points and advances `x_idx` by `glyph.right - glyph.left`. -/
def renderGo (table : List (Option Glyph)) : List Nat → Int → Option (List Point)
  | [], _ => some []
  | c :: cs, xIdx =>
    match table[c]? with
    | none => none
    | some none => renderGo table cs xIdx
    | some (some g) =>
      (renderGo table cs (wrap16 (xIdx + (g.right - g.left)))).map
        (fun rest => renderChar g xIdx ++ rest)

/-- `render_text` for the Borland and NewStroke renderers, starting at `x_idx = 0`. -/
def render_text (table : List (Option Glyph)) (text : List Nat) : Option (List Point) :=
  renderGo table text 0

/-- The character loop of `HersheyRenderer::render_text`: codepoints above 255
are skipped, the 256-entry mapping gives a Hershey glyph id, id 0 or an id
at/above the glyph table length is skipped, and the looked-up glyph (when
present) is rendered exactly as in the other renderers. -/
def renderHersheyGo (mapping : List Nat) (hfont : List (Option Glyph)) :
    List Nat → Int → Option (List Point)
  | [], _ => some []
  | c :: cs, xIdx =>
    if 255 < c then renderHersheyGo mapping hfont cs xIdx
    else
      match mapping[c]? with
      | none => none
      | some hid =>
        if hid = 0 ∨ hfont.length ≤ hid then renderHersheyGo mapping hfont cs xIdx
        else
          match hfont[hid]? with
          | none => none
          | some none => renderHersheyGo mapping hfont cs xIdx
          | some (some g) =>
            (renderHersheyGo mapping hfont cs (wrap16 (xIdx + (g.right - g.left)))).map
              (fun rest => renderChar g xIdx ++ rest)

/-- Specification-side closed form: render a list of glyphs in order, each at
the running x position, advancing by `right - left` after each. -/
def renderGlyphs : List Glyph → Int → List Point
  | [], _ => []
  | g :: gs, xIdx => renderChar g xIdx ++ renderGlyphs gs (wrap16 (xIdx + (g.right - g.left)))

/-- Specification-side: the glyphs a text selects from a table (present slots only). -/
def presentGlyphs (table : List (Option Glyph)) (text : List Nat) : List Glyph :=
  text.filterMap (fun c =>
    match table[c]? with
    | some (some g) => some g
    | _ => none)

/-- Specification-side: the glyphs a text selects through the Hershey mapping. -/
def presentHershey (mapping : List Nat) (hfont : List (Option Glyph)) (text : List Nat) :
    List Glyph :=
  text.filterMap (fun c =>
    if 255 < c then none
    else
      match mapping[c]? with
      | none => none
      | some hid =>
        if hid = 0 ∨ hfont.length ≤ hid then none
        else
          match hfont[hid]? with
          | some (some g) => some g
          | _ => none)

/-!
Strings are modelled as `List Char` so that every operation is structurally
recursive and evaluates inside the kernel; the following helpers mirror the
Rust `str` methods the build scripts use.
-/

/-- The characters `"#"`. -/
def hashTok : List Char := "#".data

/-- The characters `"//"`. -/
def slashesTok : List Char := "//".data

/-- Split at every occurrence of one separator character, keeping empty
pieces (the behaviour of Rust `str::split(c)` and of `splitn` pieces). -/
def splitOnChar (sep : Char) : List Char → List (List Char)
  | [] => [[]]
  | c :: rest =>
    if c = sep then [] :: splitOnChar sep rest
    else
      match splitOnChar sep rest with
      | [] => [[c]]
      | g :: gs => (c :: g) :: gs

/-- Split at every character satisfying the predicate, keeping empty pieces. -/
def splitPred (p : Char → Bool) : List Char → List (List Char)
  | [] => [[]]
  | c :: rest =>
    if p c then [] :: splitPred p rest
    else
      match splitPred p rest with
      | [] => [[c]]
      | g :: gs => (c :: g) :: gs

/-- Rust `str::trim_start`. -/
def charsTrimLeft (cs : List Char) : List Char := cs.dropWhile Char.isWhitespace

/-- Rust `str::trim`. -/
def charsTrim (cs : List Char) : List Char :=
  ((cs.dropWhile Char.isWhitespace).reverse.dropWhile Char.isWhitespace).reverse

/-- Rust `str::lines`: split on newlines, a trailing newline produces no
final empty line, and a trailing carriage return is stripped per line. -/
def rustLines (cs : List Char) : List (List Char) :=
  if cs.isEmpty then []
  else
    (splitOnChar '\n' (if cs.getLast? = some '\n' then cs.dropLast else cs)).map
      (fun l => if l.getLast? = some '\r' then l.dropLast else l)

/-- Rust `str::split_whitespace`: whitespace-delimited tokens, empties dropped. -/
def rustSplitWhitespace (cs : List Char) : List (List Char) :=
  (splitPred Char.isWhitespace cs).filter (fun t => ¬ t.isEmpty)

/-- Rust `str::parse::<usize>` on decimal digits (empty or non-digit input
fails). -/
def parseNatChars (cs : List Char) : Option Nat :=
  if cs.isEmpty then none
  else if cs.all Char.isDigit then
    some (cs.foldl (fun n c => n * 10 + (c.toNat - 48)) 0)
  else none

/-- Rust `str::parse::<u16>`: as `usize` but failing at 2^16 and above. -/
def parseU16Chars (cs : List Char) : Option Nat :=
  match parseNatChars cs with
  | some n => if n < 65536 then some n else none
  | none => none

/-- Rust `str::splitn(2, c)`: the part before the first separator, and
(when a separator occurs) everything after it. -/
def splitnTwo (cs : List Char) (sep : Char) : List Char × Option (List Char) :=
  match splitOnChar sep cs with
  | [] => (cs, none)
  | [x] => (x, none)
  | x :: rest => (x, some (List.intercalate [sep] rest))

namespace Hershey

/-- `NUM_GLYPHS` in `crates/hershey/build.rs`. -/
def NUM_GLYPHS : Nat := 4000

/-- Result of `Glyph::from_line`: `err` for the `Result::Err` of a failed id
parse (the record is silently dropped), `panic` for an out-of-bounds index
while reading the side-bearing pair, `ok` for a decoded record. -/
inductive FromLine where
  | err : FromLine
  | panic : FromLine
  | ok : Nat → Glyph → FromLine
  deriving DecidableEq, Repr

/-- The coordinate-pair loop of `Glyph::from_line`: consume two characters at
a time; the pair `(' ', 'R')` lifts the pen; otherwise emit a point with the
current pen state (`pen := false` right after construction or a lift) and
set the pen down for the rest of the stroke. A trailing odd character is
dropped. Coordinates are `ord(c) - ord('R')` cast to `i8`. -/
def penRun : List Char → Bool → List PackedPoint
  | x :: y :: rest, pen =>
    if x = ' ' ∧ y = 'R' then penRun rest false
    else
      { x := wrap8 ((x.toNat : Int) - 82), y := wrap8 ((y.toNat : Int) - 82), pen := pen }
        :: penRun rest true
  | _, _ => []

/-- `Glyph::from_line`: a 5-character id (trimmed, parsed as `u16`; failure
drops the record), one skipped space, a 2-character ignored vertex count,
then the `(left, right)` pair read by direct indexing — fewer than two
remaining characters is an out-of-bounds panic — and the stroke pairs. -/
def fromLine (cs : List Char) : FromLine :=
  match parseU16Chars (charsTrim (cs.take 5)) with
  | none => .err
  | some id =>
    match cs.drop 8 with
    | c0 :: c1 :: rest =>
      .ok id
        { left := wrap8 ((c0.toNat : Int) - 82), right := wrap8 ((c1.toNat : Int) - 82),
          strokes := penRun rest false }
    | _ => .panic

/-- Specification-side: the coordinate stream cut into runs at `(' ', 'R')`
pen-lift markers, keeping the raw `ord(c) - ord('R')` values. -/
def specRuns : List Char → List (List (Int × Int))
  | x :: y :: rest =>
    if x = ' ' ∧ y = 'R' then [] :: specRuns rest
    else
      match specRuns rest with
      | [] => [[((x.toNat : Int) - 82, (y.toNat : Int) - 82)]]
      | run :: runs => (((x.toNat : Int) - 82, (y.toNat : Int) - 82) :: run) :: runs
  | _ => []

/-- Specification-side: emit one run starting from the given pen state; every
later point of the run is a draw (`pen = true`). -/
def specRenderRunFrom : List (Int × Int) → Bool → List PackedPoint
  | [], _ => []
  | (x, y) :: rest, pen => { x := wrap8 x, y := wrap8 y, pen := pen } :: specRenderRunFrom rest true

/-- Specification-side: a run starts with a move (`pen = false`). -/
def specRenderRun (run : List (Int × Int)) : List PackedPoint :=
  specRenderRunFrom run false

/-- Specification-side: the emitted points of a coordinate stream whose first
run starts from the given pen state (the generalisation used to reason about
the loop of `Glyph::from_line`). -/
def specFromState (cs : List Char) (pen : Bool) : List PackedPoint :=
  match specRuns cs with
  | [] => []
  | run :: runs => specRenderRunFrom run pen ++ runs.flatMap specRenderRun

/-- The body of the range loop of `load_mapping`, iterated a fixed number of
times: one step writes `idx as u16` at the current codepoint (when below 256)
and advances both counters. -/
def applyRangeGo (result : List Nat) (cp f : Nat) : Nat → List Nat × Nat
  | 0 => (result, cp)
  | n + 1 =>
    applyRangeGo (if cp < 256 then result.set cp (f % 65536) else result) (cp + 1) (f + 1) n

/-- `FontMapping` loading, inner range loop of `load_mapping`:
`for idx in first..=last { if codepoint < 256 { result[codepoint] = idx as u16 } codepoint += 1 }`,
which runs `last + 1 - first` times (zero times when `first > last`). -/
def applyRange (result : List Nat) (cp f l : Nat) : List Nat × Nat :=
  applyRangeGo result cp f (l + 1 - f)

/-- The line loop of `load_mapping`: skip empty lines, split on single spaces,
need two parseable integers, treat `last == 0` as the single id `first`. -/
def loadMappingGo : List (List Char) → Nat → List Nat → List Nat
  | [], _, result => result
  | line :: rest, cp, result =>
    if line.isEmpty then loadMappingGo rest cp result
    else
      match splitOnChar ' ' line with
      | first :: last :: _ =>
        (match parseNatChars first, parseNatChars last with
         | some f, some l0 =>
           let l := if l0 = 0 then f else l0
           let rc := applyRange result cp f l
           loadMappingGo rest rc.2 rc.1
         | _, _ => loadMappingGo rest cp result)
      | _ => loadMappingGo rest cp result

/-- `load_mapping`: 256 zero-initialised entries, consecutive codepoints from 32. -/
def load_mapping (file : List Char) : List Nat :=
  loadMappingGo (rustLines file) 32 (List.replicate 256 0)

end Hershey

/-- The mapping-file line `"65 67"` of the specification's example. -/
def mapLine6567 : List Char := "65 67".data

/-- The mapping-file line `"70 0"` of the specification's example. -/
def mapLine700 : List Char := "70 0".data

namespace Newstroke

/-- `NUM_GLYPHS` in `crates/newstroke/build.rs` (note: `0x27FF`, not `0x2800`). -/
def NUM_GLYPHS : Nat := 0x27FF

/-- `Symbol` of the NewStroke build: raw strokes, side-bearings and named
anchors, all in the already-scaled `i8` coordinate space; the `HashMap` of
anchors is modelled as an association list. -/
structure Symbol where
  name : List Char
  strokes : List (List (Int × Int))
  left : Int
  right : Int
  anchors : List (List Char × (Int × Int))
  deriving DecidableEq, Repr

/-- `Transform` of the NewStroke build. -/
structure Transform where
  scale_x : Int
  scale_y : Int
  offset_y : Int
  deriving DecidableEq, Repr

/-- `BASE` baseline shift. -/
def BASE : Int := 9

/-- `CAP_HEIGHT`. -/
def CAP_HEIGHT : Int := -21

/-- `X_HEIGHT`. -/
def X_HEIGHT : Int := -14

/-- `SYM_HEIGHT`. -/
def SYM_HEIGHT : Int := -16

/-- `SUP_OFFSET`. -/
def SUP_OFFSET : Int := -13

/-- `SUB_OFFSET`. -/
def SUB_OFFSET : Int := 6

/-- The identity transform returned when no sigil is recognised. -/
def idTransform : Transform := { scale_x := 1, scale_y := 1, offset_y := 0 }

/-- The sigil table of `split_transform` (the backquote sigil is matched by
its code point 96). -/
def sigilTransform (c : Char) : Option Transform :=
  match c with
  | '!' => some { scale_x := -1, scale_y := 1, offset_y := 0 }
  | '-' => some { scale_x := 1, scale_y := -1, offset_y := X_HEIGHT }
  | '=' => some { scale_x := 1, scale_y := -1, offset_y := CAP_HEIGHT }
  | '~' => some { scale_x := 1, scale_y := -1, offset_y := SYM_HEIGHT }
  | '+' => some { scale_x := -1, scale_y := -1, offset_y := X_HEIGHT }
  | '%' => some { scale_x := -1, scale_y := -1, offset_y := CAP_HEIGHT }
  | '*' => some { scale_x := -1, scale_y := -1, offset_y := SYM_HEIGHT }
  | '^' => some { scale_x := 1, scale_y := 1, offset_y := SUP_OFFSET }
  | '.' => some { scale_x := 1, scale_y := 1, offset_y := SUB_OFFSET }
  | ',' => some { scale_x := -1, scale_y := 1, offset_y := SUB_OFFSET }
  | c =>
    if c = Char.ofNat 96 then some { scale_x := -1, scale_y := 1, offset_y := SUP_OFFSET }
    else none

/-- `split_transform`: strip a recognised one-character sigil and return its
transform, or the identity transform and the whole name. -/
def split_transform (name : List Char) : Transform × List Char :=
  match name with
  | [] => (idTransform, name)
  | c :: rest =>
    match sigilTransform c with
    | some t => (t, rest)
    | none => (idTransform, name)

/-- The inner point loop of `render_glyph` over one stroke: the first point of
each stroke is a move (`pen = !first_point`), all `i8` arithmetic wraps. -/
def renderStroke (tr : Transform) (ox oy : Int) : List (Int × Int) → Bool → List PackedPoint
  | [], _ => []
  | (x, y) :: rest, first =>
    { x := wrap8 (x * tr.scale_x + ox), y := wrap8 (y * tr.scale_y + oy + BASE), pen := !first }
      :: renderStroke tr ox oy rest false

/-- `render_glyph`: render every stroke of the symbol under the transform and
offset. -/
def render_glyph (raw : Symbol) (tr : Transform) (ox oy : Int) : List PackedPoint :=
  raw.strokes.flatMap (fun s => renderStroke tr ox oy s true)

/-- `transform_metrics`: mirrored transforms swap and negate the side-bearings. -/
def transform_metrics (raw : Symbol) (tr : Transform) : Int × Int :=
  if 0 ≤ tr.scale_x then (raw.left, raw.right) else (wrap8 (-raw.right), wrap8 (-raw.left))

/-- `build_single`: resolve transform and name; a missing symbol is reported
and yields `None`. -/
def build_single (font : List Char → Option Symbol) (name : List Char) : Option Glyph :=
  let tn := split_transform name
  match font tn.2 with
  | some base =>
    some { left := (transform_metrics base tn.1).1, right := (transform_metrics base tn.1).2,
           strokes := render_glyph base tn.1 0 0 }
  | none => none

/-- `anchor_offset`: no anchor yields `(0, 0)`; otherwise split `A=B` into the
base key and accent key (defaulting to the base key), look the base anchor up
(a missing base anchor is an `unwrap` panic, modelled as `none`), default a
missing accent anchor to `(0, 0)`, and combine under the two transforms. -/
def anchor_offset (base accent : Symbol) (anchor : Option (List Char))
    (base_tr accent_tr : Transform) : Option (Int × Int) :=
  match anchor with
  | none => some (0, 0)
  | some a =>
    let keys := splitnTwo a '='
    let base_key := keys.1
    let accent_key := keys.2.getD base_key
    match base.anchors.lookup base_key with
    | none => none
    | some (bx, byy) =>
      let acc := (accent.anchors.lookup accent_key).getD (0, 0)
      some (wrap8 (bx * base_tr.scale_x - acc.1 * accent_tr.scale_x),
            wrap8 (byy * base_tr.scale_y + base_tr.offset_y
                     - acc.2 * accent_tr.scale_y - accent_tr.offset_y))

/-- `compose_two`: split the accent reference at the first space into glyph
reference and optional anchor suffix, resolve both symbols (`expect` panics
modelled as `none`), place the accent at the anchor offset, and combine the
side-bearings. -/
def compose_two (font : List Char → Option Symbol) (a b : List Char) : Option Glyph :=
  let ta := split_transform a
  let bparts := splitnTwo b ' '
  let tb := split_transform bparts.1
  match font ta.2 with
  | none => none
  | some base =>
    match font tb.2 with
    | none => none
    | some acc =>
      match anchor_offset base acc bparts.2 ta.1 tb.1 with
      | none => none
      | some (ox, oy) =>
        let m1 := transform_metrics base ta.1
        let m2 := transform_metrics acc tb.1
        some { left := min m1.1 (wrap8 (m2.1 + ox)), right := max m1.2 (wrap8 (m2.2 + ox)),
               strokes := render_glyph base ta.1 0 0 ++ render_glyph acc tb.1 ox oy }

/-- The token `"startchar"`. -/
def startcharTok : List Char := "startchar".data

/-- The token `"font"`. -/
def fontTok : List Char := "font".data

/-- The token `"+"`. -/
def plusTok : List Char := "+".data

/-- The token `"+w"`. -/
def plusWTok : List Char := "+w".data

/-- The token `"+p"`. -/
def plusPTok : List Char := "+p".data

/-- The token `"+("`. -/
def plusOpenTok : List Char := "+(".data

/-- The token `"+|"`. -/
def plusBarTok : List Char := "+|".data

/-- The token `"+)"`. -/
def plusCloseTok : List Char := "+)".data

/-- The token `"skipcodes"`. -/
def skipcodesTok : List Char := "skipcodes".data

/-- One iteration of the `parse_charlist` line loop, returning the updated
`(codepoint, out)` state: comments and blank lines are skipped;
`startchar` moves the codepoint cursor (panic when out of range); `+` builds a
single or composed glyph at the cursor (an unresolved glyph is an `expect`
panic, modelled as `none`) and advances; `+w`, `+p` and `+(` are reported and
advance without emitting; `+|` and `+)` are reported without advancing;
`skipcodes` advances by its argument; anything else is a fatal panic. -/
def charlistStep (font : List Char → Option Symbol) (line0 : List Char) (cp : Nat)
    (out : List (Option Glyph)) : Option (Nat × List (Option Glyph)) :=
  let line1 := charsTrim line0
  if line1.isEmpty ∨ hashTok.isPrefixOf line1 ∨ slashesTok.isPrefixOf line1 then
    some (cp, out)
  else
    let line := charsTrim ((splitOnChar '#' line1).headD line1)
    match rustSplitWhitespace line with
    | [] => some (cp, out)
    | cmd :: args =>
      if cmd = startcharTok then
        match args.head? with
        | none => none
        | some v =>
          match parseNatChars v with
          | none => none
          | some n => if NUM_GLYPHS ≤ n then none else some (n, out)
      else if cmd = fontTok then some (cp, out)
      else if cmd = plusTok then
        if NUM_GLYPHS ≤ cp then some (cp, out)
        else
          match rustSplitWhitespace (charsTrimLeft (line.drop 1)) with
          | [] => none
          | first :: others =>
            let second :=
              if others.isEmpty then none else some (List.intercalate [' '] others)
            let glyph :=
              match second with
              | some s => compose_two font first s
              | none => build_single font first
            match glyph with
            | none => none
            | some g => some (cp + 1, out.set cp (some g))
      else if cmd = plusWTok ∨ cmd = plusPTok ∨ cmd = plusOpenTok then some (cp + 1, out)
      else if cmd = plusBarTok ∨ cmd = plusCloseTok then some (cp, out)
      else if cmd = slashesTok then some (cp, out)
      else if cmd = skipcodesTok then
        match args.head? with
        | none => none
        | some v =>
          match parseNatChars v with
          | none => none
          | some n => some (cp + n, out)
      else none

/-- The line loop itself: thread `(codepoint, out)` through `charlistStep`;
a `none` from the step is a panic aborting the whole build. -/
def charlistGo (font : List Char → Option Symbol) :
    List (List Char) → Nat → List (Option Glyph) → Option (List (Option Glyph))
  | [], _, out => some out
  | line0 :: rest, cp, out =>
    match charlistStep font line0 cp out with
    | none => none
    | some (cp', out') => charlistGo font rest cp' out'

/-- `parse_charlist`: build the `NUM_GLYPHS`-slot table from the character
list script against the symbol table. -/
def parse_charlist (input : List Char) (font : List Char → Option Symbol) :
    Option (List (Option Glyph)) :=
  charlistGo font (rustLines input) 0 (List.replicate NUM_GLYPHS none)

end Newstroke

namespace Borland

/-- `NUM_GLYPHS` in `crates/borland/build.rs`. -/
def NUM_GLYPHS : Nat := 256

/-- `parse_7bit_signed`: mask to 7 bits; when bit 6 is set (i.e. the masked
value is at least 64), OR in `0x80` and reinterpret as `i8`, which subtracts
256 from the 8-bit pattern, i.e. yields `i - 128`. -/
def parse_7bit_signed (input : Nat) : Int :=
  let i := input % 128
  if 64 ≤ i then (i : Int) - 128 else (i : Int)

/-- `Cursor::read`: read `n` bytes at `pos`; reading past the end panics. -/
def curRead (buf : List Nat) (pos n : Nat) : Option (List Nat × Nat) :=
  if pos + n ≤ buf.length then some ((buf.drop pos).take n, pos + n) else none

/-- `Cursor::read_u8`. -/
def readU8 (buf : List Nat) (pos : Nat) : Option (Nat × Nat) :=
  match curRead buf pos 1 with
  | some (bs, pos') => some (bs.headD 0, pos')
  | none => none

/-- `Cursor::read_u16_le`. -/
def readU16le (buf : List Nat) (pos : Nat) : Option (Nat × Nat) :=
  match curRead buf pos 2 with
  | some (bs, pos') => some (bs.headD 0 + 256 * bs.tail.headD 0, pos')
  | none => none

/-- `Cursor::skip`. -/
def skip (buf : List Nat) (pos n : Nat) : Option Nat :=
  if pos + n ≤ buf.length then some (pos + n) else none

/-- `Cursor::skip_to`. -/
def skipTo (buf : List Nat) (n : Nat) : Option Nat :=
  if n ≤ buf.length then some n else none

/-- `PackedCoord` of `Cursor::read_coord`. -/
structure PackedCoord where
  opcode : Nat
  x : Int
  y : Int
  deriving DecidableEq, Repr

/-- `Cursor::read_coord`: two bytes; the top bits form the opcode
(`byte0.bit7 << 1 | byte1.bit7`), the low 7 bits are 7-bit signed values,
with Y negated. -/
def readCoord (buf : List Nat) (pos : Nat) : Option (PackedCoord × Nat) :=
  match curRead buf pos 2 with
  | some (bs, pos') =>
    let b0 := bs.headD 0
    let b1 := bs.tail.headD 0
    some ({ opcode := (b0 / 128 % 2) * 2 + b1 / 128 % 2,
            x := parse_7bit_signed (b0 % 128),
            y := - parse_7bit_signed (b1 % 128) }, pos')
  | none => none

/-- The description loop of `parse_chrfile`: read bytes until the terminator
byte 26. Each iteration consumes one byte, so fuel `buf.length + 1` never
runs out on a buffer that contains the terminator. -/
def readDesc (buf : List Nat) : Nat → Nat → Option (List Nat × Nat)
  | _, 0 => none
  | pos, fuel + 1 =>
    match readU8 buf pos with
    | none => none
    | some (c, pos') =>
      if c = 26 then some ([], pos')
      else
        match readDesc buf pos' fuel with
        | some (ds, p) => some (c :: ds, p)
        | none => none

/-- `String::from_utf8(...).unwrap()` modelled as an ASCII check (the only
byte strings it is applied to are 7-bit text in conforming fonts). -/
def isAscii (bs : List Nat) : Bool := bs.all (· < 128)

/-- The per-character offset-table loop: `num_characters` 16-bit words. -/
def readWords (buf : List Nat) : Nat → Nat → Option (List Nat × Nat)
  | pos, 0 => some ([], pos)
  | pos, n + 1 =>
    match readU16le buf pos with
    | some (w, pos') =>
      (match readWords buf pos' n with
       | some (ws, p) => some (w :: ws, p)
       | none => none)
    | none => none

/-- The per-character width loop: `num_characters` bytes. -/
def readBytes (buf : List Nat) : Nat → Nat → Option (List Nat × Nat)
  | pos, 0 => some ([], pos)
  | pos, n + 1 =>
    match readU8 buf pos with
    | some (w, pos') =>
      (match readBytes buf pos' n with
       | some (ws, p) => some (w :: ws, p)
       | none => none)
    | none => none

/-- The stroke-path loop of `parse_chrfile`: read packed coordinates until
opcode `00`; opcode `01` ("do scan") is a fatal panic; opcodes `10`/`11`
append a point with `pen = false` / `pen = true`. Each iteration consumes
two bytes, so fuel `buf.length + 1` never runs out before the terminator
or the end-of-buffer panic. -/
def decodePath (buf : List Nat) : Nat → Nat → Option (List PackedPoint × Nat)
  | _, 0 => none
  | pos, fuel + 1 =>
    match readCoord buf pos with
    | none => none
    | some (c, pos') =>
      if c.opcode = 0 then some ([], pos')
      else if c.opcode = 1 then none
      else
        match decodePath buf pos' fuel with
        | some (ps, p) => some ({ x := c.x, y := c.y, pen := c.opcode = 3 } :: ps, p)
        | none => none

/-- The character loop of `parse_chrfile`: for each (offset, width) pair seek
to the character's stroke data, decode its path, and store
`Glyph { left: 0, right: width as i8 }` at `ascii_value` (an `ascii_value`
outside the 256-slot array is an out-of-bounds panic, modelled as `none`). -/
def buildChars (buf : List Nat) (dataStart : Nat) :
    List (Nat × Nat) → Nat → List (Option Glyph) → Option (List (Option Glyph))
  | [], _, file => some file
  | (off, w) :: rest, ascii, file =>
    match skipTo buf (off + dataStart) with
    | none => none
    | some pos =>
      match decodePath buf pos (buf.length + 1) with
      | none => none
      | some (path, _) =>
        if ascii < NUM_GLYPHS then
          buildChars buf dataStart rest (ascii + 1)
            (file.set ascii (some { left := 0, right := wrap8 (w : Int), strokes := path }))
        else none

/-- Steps 1-2 of `parse_chrfile`: the 8-byte magic check and the
terminator-delimited description; returns the cursor position after the
terminator. -/
def parseMagicDesc (buf : List Nat) : Option Nat :=
  match curRead buf 0 8 with
  | none => none
  | some (magic, pos) =>
    if magic = [80, 75, 8, 8, 66, 71, 73, 32] then
      match readDesc buf pos (buf.length + 1) with
      | none => none
      | some (desc, pos') => if isAscii desc then some pos' else none
    else none

/-- Step 3 of `parse_chrfile`: header length, 4-byte short name, file size,
two version bytes, and the `header_end` word that must equal `0x0001`;
returns the header length for the following absolute seek. -/
def parseHeaderInfo (buf : List Nat) (pos : Nat) : Option Nat :=
  match readU16le buf pos with
  | none => none
  | some (headerLen, pos) =>
    match curRead buf pos 4 with
    | none => none
    | some (nm, pos) =>
      if isAscii nm then
        match readU16le buf pos with
        | none => none
        | some (_, pos) =>
          match skip buf pos 2 with
          | none => none
          | some pos =>
            match readU16le buf pos with
            | none => none
            | some (headerEnd, _) => if headerEnd = 1 then some headerLen else none
      else none

/-- Steps 5-6 of `parse_chrfile`, after the seek to the header length: `+`
signature, character count, reserved byte, starting character, stroke offset,
scan flag, three font metrics, 4 reserved bytes and one undocumented byte,
ending with the `pos == 0x90` assertion. Returns `(num_characters,
start_char, pos)`. The discarded stroke-offset word, scan flag and three
metric bytes are consumed with a 6-byte `skip`, whose bounds behaviour
equals that of the discarded `read_u16_le`/`read_u8` calls. -/
def parseFontInfo (buf : List Nat) (pos : Nat) : Option (Nat × Nat × Nat) :=
  match readU8 buf pos with
  | none => none
  | some (sg, pos) =>
    if sg = 43 then
      match readU16le buf pos with
      | none => none
      | some (numChars, pos) =>
        match skip buf pos 1 with
        | none => none
        | some pos =>
          match readU8 buf pos with
          | none => none
          | some (startChar, pos) =>
            match skip buf pos 6 with
            | none => none
            | some pos =>
              match skip buf pos 4 with
              | none => none
              | some pos =>
                match skip buf pos 1 with
                | none => none
                | some pos => if pos = 144 then some (numChars, startChar, pos) else none
    else none

/-- `parse_chrfile`: magic check, description, header fields (with the
`header_end = 0x0001` and `pos = 0x90` assertions), offset and width tables,
then the per-character stroke decode. Failed assertions and reads past the
buffer end are panics, modelled as `none`. -/
def parse_chrfile (buf : List Nat) : Option (List (Option Glyph)) :=
  match parseMagicDesc buf with
  | none => none
  | some pos =>
    match parseHeaderInfo buf pos with
    | none => none
    | some headerLen =>
      match skipTo buf headerLen with
      | none => none
      | some pos =>
        match parseFontInfo buf pos with
        | none => none
        | some (numChars, startChar, pos) =>
          match readWords buf pos numChars with
          | none => none
          | some (offs, pos) =>
            match readBytes buf pos numChars with
            | none => none
            | some (ws, pos) =>
              buildChars buf pos (offs.zip ws) startChar (List.replicate NUM_GLYPHS none)

end Borland

/-- Specification-side: the 7-bit two's-complement encoding of a value in
`[-64, 63]` (nonnegative values unchanged, negatives offset by 128). -/
def encode7 (x : Int) : Nat := (x % 128).toNat

/-- Specification-side: reinterpret a signed 8-bit value as the byte holding
its bit pattern. -/
def byteOfI8 (z : Int) : Nat := (z % 256).toNat

/-- An all-empty 256-slot Borland-sized table. -/
def emptyTable256 : List (Option Glyph) := List.replicate 256 none

/-- Example glyph A of the specification's renderer-advance example:
`left = 0`, `right = 10`. -/
def exGlyphA : Glyph := { left := 0, right := 10, strokes := [{ x := 3, y := 4, pen := true }] }

/-- Example glyph B of the specification's renderer-advance example:
`left = 2`, `right = 8`. -/
def exGlyphB : Glyph := { left := 2, right := 8, strokes := [{ x := 5, y := 6, pen := false }] }

/-- A two-slot table holding the example glyphs A and B at codepoints 0 and 1. -/
def exTableAB : List (Option Glyph) := [some exGlyphA, some exGlyphB]

/-- A symbol table with no symbols at all. -/
def emptyFont : List Char → Option Newstroke.Symbol := fun _ => none

/-- The character-list line referencing the undefined symbol `FOO`. -/
def plusFooScript : List Char := "+ FOO".data

/-- The character-list line referencing the undefined symbol `BAR`. -/
def plusBarScript : List Char := "+ BAR".data

/-- The empty character-list script. -/
def emptyScript : List Char := []

/-- The symbol name `FOO`. -/
def fooName : List Char := "FOO".data

/-- The anchor name `TOP` of the composition example. -/
def topName : List Char := "TOP".data

/-- The base symbol name of the composition example. -/
def basName : List Char := "BAS".data

/-- The accent symbol name of the composition example. -/
def accName : List Char := "ACC".data

/-- The accent reference `ACC TOP` (accent symbol plus anchor suffix). -/
def accWithAnchor : List Char := "ACC TOP".data

/-- The base symbol of the composition example: two stroke points, side
bearings `(-2, 5)`, anchor `TOP` at `(3, 5)`. -/
def exBaseSym : Newstroke.Symbol :=
  { name := basName, strokes := [[(1, 2), (3, 4)]], left := -2, right := 5,
    anchors := [(topName, (3, 5))] }

/-- The accent symbol of the composition example: one stroke point, side
bearings `(-1, 1)`, anchor `TOP` at `(1, 2)`. -/
def exAccSym : Newstroke.Symbol :=
  { name := accName, strokes := [[(0, 1)]], left := -1, right := 1,
    anchors := [(topName, (1, 2))] }

/-- The symbol table of the composition example. -/
def exFont : List Char → Option Newstroke.Symbol := fun n =>
  if n = basName then some exBaseSym else if n = accName then some exAccSym else none

/-- The glyph `build_single exFont basName` evaluates to. -/
def exBasGlyph : Glyph :=
  { left := -2, right := 5,
    strokes := [{ x := 1, y := 11, pen := false }, { x := 3, y := 13, pen := true }] }

/-- A Hershey record line holding only a parseable id and nothing after it. -/
def truncatedHersheyLine : List Char := "  123".data

/-- A synthetic minimal Borland CHR container: empty description, header
length 128, one character at starting code 65 with width 10, whose stroke
data is a single draw-to coordinate (opcode `11`, x = 1, y = -1) followed by
the end-of-character opcode. -/
def exChrBuf : List Nat :=
  [80, 75, 8, 8, 66, 71, 73, 32, 26, 128, 0, 65, 66, 67, 68, 0, 0, 0, 0, 1, 0]
    ++ List.replicate 107 0
    ++ [43, 1, 0, 0, 65]
    ++ List.replicate 11 0
    ++ [0, 0, 10, 129, 129, 0, 0]

theorem wrap8_add_left (a b : Int) : wrap8 (wrap8 a + b) = wrap8 (a + b) := by
  unfold wrap8; omega

theorem renderGo_eq_renderGlyphs (table : List (Option Glyph)) :
    ∀ (text : List Nat) (xIdx : Int), (∀ c ∈ text, c < table.length) →
      renderGo table text xIdx = some (renderGlyphs (presentGlyphs table text) xIdx) := by
  intro text
  induction text with
  | nil => intro xIdx _; rfl
  | cons c cs ih =>
    intro xIdx h
    have hc : c < table.length := h c (by simp)
    have hcs : ∀ a ∈ cs, a < table.length := fun a ha => h a (by simp [ha])
    have hg : table[c]? = some table[c] := List.getElem?_eq_getElem hc
    cases hv : table[c] with
    | none =>
      simp only [renderGo, hg, hv, presentGlyphs, List.filterMap_cons]
      exact ih xIdx hcs
    | some g =>
      simp only [renderGo, hg, hv, presentGlyphs, List.filterMap_cons, ih _ hcs,
        Option.map_some]
      rfl

theorem renderHersheyGo_eq_renderGlyphs (mapping : List Nat) (hfont : List (Option Glyph))
    (hlen : mapping.length = 256) :
    ∀ (text : List Nat) (xIdx : Int),
      renderHersheyGo mapping hfont text xIdx =
        some (renderGlyphs (presentHershey mapping hfont text) xIdx) := by
  intro text
  induction text with
  | nil => intro xIdx; rfl
  | cons c cs ih =>
    intro xIdx
    by_cases hc : 255 < c
    · simp only [renderHersheyGo, hc, if_true, presentHershey, List.filterMap_cons, if_pos hc]
      exact ih xIdx
    · have hcl : c < mapping.length := by omega
      have hm : mapping[c]? = some mapping[c] := List.getElem?_eq_getElem hcl
      by_cases hid : mapping[c] = 0 ∨ hfont.length ≤ mapping[c]
      · simp only [renderHersheyGo, hc, if_false, hm, hid, if_true, presentHershey,
          List.filterMap_cons, if_neg hc]
        exact ih xIdx
      · have hfl : mapping[c] < hfont.length := by omega
        have hf : hfont[mapping[c]]? = some hfont[mapping[c]] := List.getElem?_eq_getElem hfl
        cases hv : hfont[mapping[c]] with
        | none =>
          simp only [renderHersheyGo, hc, if_false, hm, hid, if_false, hf, hv,
            presentHershey, List.filterMap_cons, if_neg hc]
          exact ih xIdx
        | some g =>
          simp only [renderHersheyGo, hc, if_false, hm, hid, if_false, hf, hv,
            presentHershey, List.filterMap_cons, if_neg hc, ih, Option.map_some]
          rfl

theorem renderGo_oob (table : List (Option Glyph)) :
    ∀ (text : List Nat) (xIdx : Int) (c : Nat), c ∈ text → table.length ≤ c →
      renderGo table text xIdx = none := by
  intro text
  induction text with
  | nil => intro _ c hc _; cases hc
  | cons a cs ih =>
    intro xIdx c hc hlen
    rcases List.mem_cons.mp hc with rfl | hmem
    · have : table[c]? = none := List.getElem?_eq_none hlen
      simp [renderGo, this]
    · cases ha : table[a]? with
      | none => simp [renderGo, ha]
      | some v =>
        cases v with
        | none => simp only [renderGo, ha]; exact ih xIdx c hmem hlen
        | some g => simp [renderGo, ha, ih _ c hmem hlen]

theorem presentGlyphs_filter (table : List (Option Glyph)) :
    ∀ text : List Nat, (∀ c ∈ text, c < table.length) →
      presentGlyphs table (text.filter (fun c => (table.getD c none).isSome)) =
        presentGlyphs table text := by
  intro text
  induction text with
  | nil => intro _; rfl
  | cons c cs ih =>
    intro h
    have hc : c < table.length := h c (by simp)
    have hcs : ∀ a ∈ cs, a < table.length := fun a ha => h a (by simp [ha])
    have hg : table[c]? = some table[c] := List.getElem?_eq_getElem hc
    have hd : table.getD c none = table[c] := by
      simp [List.getD, hg]
    cases hv : table[c] with
    | none =>
      simp only [List.filter_cons, hd, hv, Option.isSome_none, Bool.false_eq_true, if_false,
        presentGlyphs, List.filterMap_cons, hg]
      exact ih hcs
    | some g =>
      simp only [List.filter_cons, hd, hv, Option.isSome_some, if_true, presentGlyphs,
        List.filterMap_cons, hg]
      rw [show (presentGlyphs table cs = List.filterMap _ cs) from rfl] at ih
      exact congrArg (g :: ·) (ih hcs)

/-- Claim C1 (amended): the Hershey renderer never fails on any text (it
skips codepoints above 255 and unmapped ids); the Borland/NewStroke renderer
never fails and skips absent slots as long as every codepoint of the text is
below the table length; but a codepoint at or beyond the table length makes
the Borland/NewStroke renderer fail (index out of bounds) instead of being
skipped. -/
theorem c1_render_error_handling :
    (∀ (mapping : List Nat) (hfont : List (Option Glyph)) (text : List Nat),
        mapping.length = 256 → (renderHersheyGo mapping hfont text 0).isSome = true)
  ∧ (∀ (table : List (Option Glyph)) (text : List Nat),
        (∀ c ∈ text, c < table.length) → (renderGo table text 0).isSome = true)
  ∧ (∀ (table : List (Option Glyph)) (text : List Nat),
        (∀ c ∈ text, c < table.length) →
        renderGo table text 0 =
          renderGo table (text.filter (fun c => (table.getD c none).isSome)) 0)
  ∧ (∀ (table : List (Option Glyph)) (text : List Nat) (c : Nat),
        c ∈ text → table.length ≤ c → renderGo table text 0 = none) := by
  refine ⟨?_, ?_, ?_, ?_⟩
  · intro mapping hfont text hlen
    rw [renderHersheyGo_eq_renderGlyphs mapping hfont hlen text 0]
    rfl
  · intro table text h
    rw [renderGo_eq_renderGlyphs table text 0 h]
    rfl
  · intro table text h
    have hf : ∀ c ∈ text.filter (fun c => (table.getD c none).isSome), c < table.length :=
      fun c hc => h c (List.mem_of_mem_filter hc)
    rw [renderGo_eq_renderGlyphs table text 0 h,
      renderGo_eq_renderGlyphs table _ 0 hf, presentGlyphs_filter table text h]
  · intro table text c hc hlen
    exact renderGo_oob table text 0 c hc hlen

/-- Witness for C1: a concrete in-range rendering succeeds. -/
theorem c1_render_error_handling_witness :
    (∀ c ∈ [65], c < emptyTable256.length) ∧ (renderGo emptyTable256 [65] 0).isSome = true :=
  ⟨by decide, c1_render_error_handling.2.1 emptyTable256 [65] (by decide)⟩

/-- Counterexample to C1 as stated: rendering the single out-of-range
codepoint 256 against a full-size (256-slot) Borland table panics (`none`)
instead of skipping the character, although rendering the text with that
character removed succeeds. -/
theorem c1_counterexample_oob_panics :
    renderGo emptyTable256 [256] 0 = none ∧ renderGo emptyTable256 [] 0 = some [] := by
  constructor
  · decide
  · rfl

/-- Claim C5: for every text whose codepoints are in range, `render_text`
emits, for each present glyph in input order, its stroke points translated by
`x = point.x - glyph.left + running_x`, `y = point.y`, pen unchanged, where
`running_x` starts at 0 and grows by `glyph.right - glyph.left` per present
glyph and is never reset (closed form `renderGlyphs`/`presentGlyphs`); the
Hershey renderer satisfies the same closed form unconditionally; and in the
specification's example, glyph B's point lands at its raw x plus
`10 - 2 = 8`. -/
theorem c5_render_translation_advance :
    (∀ (table : List (Option Glyph)) (text : List Nat),
        (∀ c ∈ text, c < table.length) →
        renderGo table text 0 = some (renderGlyphs (presentGlyphs table text) 0))
  ∧ (∀ (mapping : List Nat) (hfont : List (Option Glyph)) (text : List Nat),
        mapping.length = 256 →
        renderHersheyGo mapping hfont text 0 =
          some (renderGlyphs (presentHershey mapping hfont text) 0))
  ∧ renderGo exTableAB [0, 1] 0 =
      some [{ x := 3, y := 4, pen := true }, { x := 5 + (10 - 2), y := 6, pen := false }] := by
  refine ⟨?_, ?_, ?_⟩
  · intro table text h
    exact renderGo_eq_renderGlyphs table text 0 h
  · intro mapping hfont text hlen
    exact renderHersheyGo_eq_renderGlyphs mapping hfont hlen text 0
  · decide

/-- Witness for C5: the closed form instantiated at the example table. -/
theorem c5_render_translation_advance_witness :
    (∀ c ∈ [0, 1], c < exTableAB.length) ∧
      renderGo exTableAB [0, 1] 0 = some (renderGlyphs (presentGlyphs exTableAB [0, 1]) 0) :=
  ⟨by decide, c5_render_translation_advance.1 exTableAB [0, 1] (by decide)⟩

theorem penRun_eq_specFromState :
    ∀ (cs : List Char) (pen : Bool), Hershey.penRun cs pen = Hershey.specFromState cs pen
  | [], _ => by simp [Hershey.penRun, Hershey.specFromState, Hershey.specRuns]
  | [c], _ => by simp [Hershey.penRun, Hershey.specFromState, Hershey.specRuns]
  | x :: y :: rest, pen => by
    have ihf := penRun_eq_specFromState rest false
    have iht := penRun_eq_specFromState rest true
    by_cases hm : x = ' ' ∧ y = 'R'
    · rw [show Hershey.penRun (x :: y :: rest) pen = Hershey.penRun rest false by
        simp [Hershey.penRun, hm]]
      rw [ihf]
      unfold Hershey.specFromState
      rw [show Hershey.specRuns (x :: y :: rest) = [] :: Hershey.specRuns rest by
        simp [Hershey.specRuns, hm]]
      cases hr : Hershey.specRuns rest with
      | nil => simp [Hershey.specRenderRunFrom]
      | cons run runs => simp [Hershey.specRenderRun, Hershey.specRenderRunFrom]
    · rw [show Hershey.penRun (x :: y :: rest) pen =
          { x := wrap8 ((x.toNat : Int) - 82), y := wrap8 ((y.toNat : Int) - 82), pen := pen }
            :: Hershey.penRun rest true by simp [Hershey.penRun, hm]]
      rw [iht]
      unfold Hershey.specFromState
      rw [show Hershey.specRuns (x :: y :: rest) =
          (match Hershey.specRuns rest with
           | [] => [[((x.toNat : Int) - 82, (y.toNat : Int) - 82)]]
           | run :: runs => (((x.toNat : Int) - 82, (y.toNat : Int) - 82) :: run) :: runs) by
        simp [Hershey.specRuns, hm]]
      cases hr : Hershey.specRuns rest with
      | nil => simp [Hershey.specRenderRunFrom]
      | cons run runs => simp [Hershey.specRenderRunFrom]

/-- Claim C6: in the coordinate loop of the Hershey record decoder, a
`(' ', 'R')` pair emits no point and resets the pen; the decoded stream
equals, run by run between pen-lifts, a move (`pen = false`) followed by
draws (`pen = true`). -/
theorem c6_hershey_pen_lift :
    ∀ cs : List Char,
      Hershey.penRun cs false = (Hershey.specRuns cs).flatMap Hershey.specRenderRun := by
  intro cs
  rw [penRun_eq_specFromState cs false]
  unfold Hershey.specFromState
  cases Hershey.specRuns cs with
  | nil => rfl
  | cons run runs => rfl

/-- Claim C10: any line whose first five characters parse as a glyph id but
which has fewer than two characters after the 8-character header makes
`Glyph::from_line` hit an out-of-bounds index while reading the side-bearing
pair — a panic, not the silent `err` drop of an unparseable id. -/
theorem c10_hershey_truncated_panics :
    ∀ (cs : List Char) (id : Nat),
      parseU16Chars (charsTrim (cs.take 5)) = some id →
      cs.length < 10 → Hershey.fromLine cs = Hershey.FromLine.panic := by
  intro cs id h hlen
  unfold Hershey.fromLine
  rw [h]
  have hdl : (cs.drop 8).length < 2 := by
    rw [List.length_drop]; omega
  cases hd : cs.drop 8 with
  | nil => rfl
  | cons c0 tl =>
    cases tl with
    | nil => rfl
    | cons c1 r =>
      rw [hd] at hdl
      simp at hdl
      omega

/-- Witness for C10: the record `"  123"` (valid id, nothing after it) panics. -/
theorem c10_hershey_truncated_panics_witness :
    Hershey.fromLine truncatedHersheyLine = Hershey.FromLine.panic :=
  c10_hershey_truncated_panics truncatedHersheyLine 123 (by decide) (by decide)

theorem penRun_head_pen :
    ∀ (cs : List Char) (p : PackedPoint),
      (Hershey.penRun cs false).head? = some p → p.pen = false
  | [], p => by simp [Hershey.penRun]
  | [c], p => by simp [Hershey.penRun]
  | x :: y :: rest, p => by
    intro h
    by_cases hm : x = ' ' ∧ y = 'R'
    · rw [show Hershey.penRun (x :: y :: rest) false = Hershey.penRun rest false by
        simp [Hershey.penRun, hm]] at h
      exact penRun_head_pen rest p h
    · rw [show Hershey.penRun (x :: y :: rest) false =
          { x := wrap8 ((x.toNat : Int) - 82), y := wrap8 ((y.toNat : Int) - 82),
            pen := false } :: Hershey.penRun rest true by simp [Hershey.penRun, hm]] at h
      simp only [List.head?_cons, Option.some.injEq] at h
      rw [← h]

theorem renderStroke_head_pen (tr : Newstroke.Transform) (ox oy : Int)
    (s : List (Int × Int)) (first : Bool) (p : PackedPoint)
    (h : (Newstroke.renderStroke tr ox oy s first).head? = some p) : p.pen = !first := by
  cases s with
  | nil => simp [Newstroke.renderStroke] at h
  | cons xy rest =>
    obtain ⟨x, y⟩ := xy
    simp only [Newstroke.renderStroke, List.head?_cons, Option.some.injEq] at h
    rw [← h]

theorem flatStrokes_head_pen (tr : Newstroke.Transform) (ox oy : Int) :
    ∀ (ls : List (List (Int × Int))) (p : PackedPoint),
      ((ls.flatMap (fun s => Newstroke.renderStroke tr ox oy s true)).head? = some p) →
      p.pen = false := by
  intro ls
  induction ls with
  | nil => intro p h; simp at h
  | cons s rest ih =>
    intro p h
    rw [List.flatMap_cons] at h
    cases hs : Newstroke.renderStroke tr ox oy s true with
    | nil => rw [hs, List.nil_append] at h; exact ih p h
    | cons q qs =>
      rw [hs, List.cons_append, List.head?_cons, Option.some.injEq] at h
      have hq : q.pen = !true := renderStroke_head_pen tr ox oy s true q (by rw [hs]; rfl)
      rw [← h, hq]
      rfl

theorem render_glyph_head_pen (raw : Newstroke.Symbol) (tr : Newstroke.Transform)
    (ox oy : Int) (p : PackedPoint)
    (h : (Newstroke.render_glyph raw tr ox oy).head? = some p) : p.pen = false :=
  flatStrokes_head_pen tr ox oy raw.strokes p h

theorem append_head_pen (l1 l2 : List PackedPoint) (p : PackedPoint)
    (h : (l1 ++ l2).head? = some p)
    (h1 : ∀ q, l1.head? = some q → q.pen = false)
    (h2 : ∀ q, l2.head? = some q → q.pen = false) : p.pen = false := by
  cases l1 with
  | nil => exact h2 p (by simpa using h)
  | cons a l => exact h1 p (by simpa using h)

/-- Claim C4 (amended): every glyph decoded by the Hershey record parser and
every glyph built by the NewStroke single-symbol or two-symbol builder starts,
when its stroke sequence is non-empty, with a `pen = false` point; the Borland
decoder does not enforce this (it copies the pen flag from the opcode stream,
see the counterexample). -/
theorem c4_first_point_pen_up :
    (∀ (cs : List Char) (id : Nat) (g : Glyph) (p : PackedPoint),
        Hershey.fromLine cs = Hershey.FromLine.ok id g →
        g.strokes.head? = some p → p.pen = false)
  ∧ (∀ (font : List Char → Option Newstroke.Symbol) (name : List Char)
        (g : Glyph) (p : PackedPoint),
        Newstroke.build_single font name = some g →
        g.strokes.head? = some p → p.pen = false)
  ∧ (∀ (font : List Char → Option Newstroke.Symbol) (a b : List Char)
        (g : Glyph) (p : PackedPoint),
        Newstroke.compose_two font a b = some g →
        g.strokes.head? = some p → p.pen = false) := by
  refine ⟨?_, ?_, ?_⟩
  · intro cs id g p hok hh
    unfold Hershey.fromLine at hok
    cases hpar : parseU16Chars (charsTrim (cs.take 5)) with
    | none => rw [hpar] at hok; exact absurd hok (by simp)
    | some id2 =>
      rw [hpar] at hok
      cases hd : cs.drop 8 with
      | nil => rw [hd] at hok; exact absurd hok (by simp)
      | cons c0 tl =>
        cases tl with
        | nil => rw [hd] at hok; exact absurd hok (by simp)
        | cons c1 r =>
          rw [hd] at hok
          simp only [Hershey.FromLine.ok.injEq] at hok
          obtain ⟨-, h2⟩ := hok
          rw [← h2] at hh
          exact penRun_head_pen r p hh
  · intro font name g p hb hh
    simp only [Newstroke.build_single] at hb
    cases hf : font (Newstroke.split_transform name).2 with
    | none => rw [hf] at hb; exact absurd hb (by simp)
    | some base =>
      rw [hf] at hb
      simp only [Option.some.injEq] at hb
      rw [← hb] at hh
      exact render_glyph_head_pen base (Newstroke.split_transform name).1 0 0 p hh
  · intro font a b g p hc hh
    simp only [Newstroke.compose_two] at hc
    split at hc
    · exact absurd hc (by simp)
    · split at hc
      · exact absurd hc (by simp)
      · split at hc
        · exact absurd hc (by simp)
        · simp only [Option.some.injEq] at hc
          rw [← hc] at hh
          refine append_head_pen _ _ p hh (fun q hq => ?_) (fun q hq => ?_)
          · exact render_glyph_head_pen _ _ _ _ q hq
          · exact render_glyph_head_pen _ _ _ _ q hq

/-- Witness for C4: the single-symbol build of the example base symbol starts
with a pen-up point. -/
theorem c4_first_point_pen_up_witness :
    (PackedPoint.mk 1 11 false).pen = false :=
  c4_first_point_pen_up.2.1 exFont basName exBasGlyph (PackedPoint.mk 1 11 false)
    (by decide) (by decide)

/-- Counterexample to C4 as stated: the Borland decoder accepts a container
whose single character's stroke data starts with a draw-to opcode, producing a
stored glyph whose first point has `pen = true`. -/
theorem c4_counterexample_borland_pen_down_first :
    (Borland.parse_chrfile exChrBuf).map
        (fun t => (t.getD 65 none).map (fun g => g.strokes.map PackedPoint.pen)) =
      some (some [true]) := by
  decide

/-- Claim C7: decoding the 7-bit two's-complement encoding of any
`x ∈ [-64, 63]` returns `x`, and the decoder is idempotent when its signed
output is reinterpreted as a byte and decoded again. -/
theorem c7_parse7bit_roundtrip_idempotent :
    (∀ x : Int, -64 ≤ x → x ≤ 63 → Borland.parse_7bit_signed (encode7 x) = x)
  ∧ (∀ b : Nat, b < 256 →
      Borland.parse_7bit_signed (byteOfI8 (Borland.parse_7bit_signed b)) =
        Borland.parse_7bit_signed b) := by
  constructor
  · intro x h1 h2
    simp only [Borland.parse_7bit_signed, encode7]
    split <;> omega
  · decide

/-- Witness for C7: the round trip at `x = -5` and idempotence at byte 200. -/
theorem c7_parse7bit_roundtrip_idempotent_witness :
    Borland.parse_7bit_signed (encode7 (-5)) = -5 ∧
      Borland.parse_7bit_signed (byteOfI8 (Borland.parse_7bit_signed 200)) =
        Borland.parse_7bit_signed 200 :=
  ⟨c7_parse7bit_roundtrip_idempotent.1 (-5) (by decide) (by decide),
   c7_parse7bit_roundtrip_idempotent.2 200 (by decide)⟩

/-- Claim C3 (amended): a `+ <symbol>` command whose symbol name (after
stripping any sigil) is missing from the symbol table makes `build_single`
report the name and return no glyph, and `parse_charlist` then panics on the
`expect("failed to create glyph")`, aborting the whole table build instead of
leaving the slot absent and continuing. -/
theorem c3_missing_symbol_aborts :
    (∀ (font : List Char → Option Newstroke.Symbol) (name : List Char),
        font (Newstroke.split_transform name).2 = none →
        Newstroke.build_single font name = none)
  ∧ Newstroke.parse_charlist plusBarScript emptyFont = none := by
  constructor
  · intro font name h
    simp only [Newstroke.build_single, h]
  · decide

/-- Witness for C3: `build_single` on the empty table yields no glyph. -/
theorem c3_missing_symbol_aborts_witness :
    Newstroke.build_single emptyFont fooName = none :=
  c3_missing_symbol_aborts.1 emptyFont fooName (by decide)

/-- Counterexample to C3 as stated: building from the one-line script
`"+ FOO"` over an empty symbol table panics (`none`) rather than producing a
table with the slot left absent. -/
theorem c3_counterexample_charlist_panics :
    Newstroke.parse_charlist plusFooScript emptyFont = none := by
  decide

theorem charlistStep_length (font : List Char → Option Newstroke.Symbol)
    (line : List Char) (cp : Nat) (out : List (Option Glyph)) (cp' : Nat)
    (out' : List (Option Glyph))
    (h : Newstroke.charlistStep font line cp out = some (cp', out')) :
    out'.length = out.length := by
  simp only [Newstroke.charlistStep] at h
  repeat' split at h
  all_goals (try cases h)
  all_goals simp [List.length_set]

theorem charlistGo_length (font : List Char → Option Newstroke.Symbol) :
    ∀ (lines : List (List Char)) (cp : Nat) (acc out : List (Option Glyph)),
      Newstroke.charlistGo font lines cp acc = some out → out.length = acc.length := by
  intro lines
  induction lines with
  | nil =>
    intro cp acc out h
    simp only [Newstroke.charlistGo, Option.some.injEq] at h
    rw [← h]
  | cons l rest ih =>
    intro cp acc out h
    simp only [Newstroke.charlistGo] at h
    split at h
    · cases h
    · rename_i cp2 acc2 hs
      rw [ih cp2 acc2 out h, charlistStep_length font l cp acc cp2 acc2 hs]

/-- Claim C2 (amended): the table built by `parse_charlist` has exactly
`0x27FF` slots, so `0x27FE` is its largest valid codepoint index and `0x27FF`
itself is out of range (the specification's `0x2800` is off by one). -/
theorem c2_newstroke_table_size :
    ∀ (input : List Char) (font : List Char → Option Newstroke.Symbol)
      (out : List (Option Glyph)),
      Newstroke.parse_charlist input font = some out →
      out.length = 0x27FF ∧ (out[0x27FE]?).isSome = true ∧ out[0x27FF]? = none := by
  intro input font out h
  have hl : out.length = 0x27FF := by
    have hgo := charlistGo_length font (rustLines input) 0
      (List.replicate Newstroke.NUM_GLYPHS none) out h
    rw [hgo, List.length_replicate]
    rfl
  refine ⟨hl, ?_, ?_⟩
  · rw [List.getElem?_eq_getElem (by omega)]
    rfl
  · exact List.getElem?_eq_none (by omega)

/-- Witness for C2: the empty script builds the all-absent `0x27FF`-slot table. -/
theorem c2_newstroke_table_size_witness :
    Newstroke.parse_charlist emptyScript emptyFont =
        some (List.replicate Newstroke.NUM_GLYPHS none) ∧
      ((List.replicate Newstroke.NUM_GLYPHS (none : Option Glyph)).length = 0x27FF ∧
        ((List.replicate Newstroke.NUM_GLYPHS (none : Option Glyph))[0x27FE]?).isSome = true ∧
        (List.replicate Newstroke.NUM_GLYPHS (none : Option Glyph))[0x27FF]? = none) :=
  ⟨rfl, c2_newstroke_table_size emptyScript emptyFont _ rfl⟩

/-- Counterexample to C2 as stated: the table built from the empty script has
`0x27FF` slots, not `0x2800`. -/
theorem c2_counterexample_table_not_0x2800 :
    (Newstroke.parse_charlist emptyScript emptyFont).map List.length = some 0x27FF ∧
      (Newstroke.parse_charlist emptyScript emptyFont).map List.length ≠ some 0x2800 := by
  have h : Newstroke.parse_charlist emptyScript emptyFont =
      some (List.replicate Newstroke.NUM_GLYPHS none) := rfl
  rw [h]
  refine ⟨?_, ?_⟩
  · simp only [Option.map_some', List.length_replicate]
    rfl
  · simp only [Option.map_some', List.length_replicate]
    decide

theorem applyRangeGo_length :
    ∀ (n : Nat) (result : List Nat) (cp f : Nat),
      ((Hershey.applyRangeGo result cp f n).1).length = result.length := by
  intro n
  induction n with
  | zero => intro result cp f; rfl
  | succ n ih =>
    intro result cp f
    rw [Hershey.applyRangeGo, ih]
    by_cases hcp : cp < 256 <;> simp [hcp]

theorem applyRangeGo_snd :
    ∀ (n : Nat) (result : List Nat) (cp f : Nat),
      (Hershey.applyRangeGo result cp f n).2 = cp + n := by
  intro n
  induction n with
  | zero => intro result cp f; rfl
  | succ n ih =>
    intro result cp f
    rw [Hershey.applyRangeGo, ih]
    omega

theorem applyRangeGo_getD_lt :
    ∀ (n : Nat) (result : List Nat) (cp f j : Nat), j < cp →
      ((Hershey.applyRangeGo result cp f n).1).getD j 0 = result.getD j 0 := by
  intro n
  induction n with
  | zero => intro result cp f j _; rfl
  | succ n ih =>
    intro result cp f j hj
    rw [Hershey.applyRangeGo, ih _ (cp + 1) (f + 1) j (by omega)]
    by_cases hcp : cp < 256
    · rw [if_pos hcp, List.getD_eq_getElem?_getD, List.getD_eq_getElem?_getD,
        List.getElem?_set_ne (by omega : cp ≠ j)]
    · rw [if_neg hcp]

theorem applyRangeGo_getD :
    ∀ (n k : Nat) (result : List Nat) (cp f : Nat),
      result.length = 256 → k < n → cp + k < 256 →
      ((Hershey.applyRangeGo result cp f n).1).getD (cp + k) 0 = (f + k) % 65536 := by
  intro n
  induction n with
  | zero => intro k result cp f _ hk _; omega
  | succ n ih =>
    intro k result cp f hlen hk hcp
    rw [Hershey.applyRangeGo]
    cases k with
    | zero =>
      have hcp0 : cp < 256 := by omega
      rw [applyRangeGo_getD_lt n _ (cp + 1) (f + 1) (cp + 0) (by omega), if_pos hcp0,
        Nat.add_zero, List.getD_eq_getElem?_getD,
        List.getElem?_set_eq_of_lt (f % 65536) (by omega)]
      rfl
    | succ k =>
      have := ih k (if cp < 256 then result.set cp (f % 65536) else result) (cp + 1) (f + 1)
        (by by_cases hcp0 : cp < 256 <;> simp [hcp0, hlen]) (by omega) (by omega)
      rw [show cp + (k + 1) = cp + 1 + k by omega, show f + (k + 1) = f + 1 + k by omega]
      exact this

theorem loadMappingGo_length :
    ∀ (lines : List (List Char)) (cp : Nat) (result : List Nat),
      (Hershey.loadMappingGo lines cp result).length = result.length := by
  intro lines
  induction lines with
  | nil => intro cp result; rfl
  | cons line rest ih =>
    intro cp result
    rw [Hershey.loadMappingGo]
    split
    · exact ih cp result
    · split
      · split
        · rw [ih]
          exact applyRangeGo_length _ result cp _
        · exact ih cp result
      · exact ih cp result

/-- Claim C9: the Hershey mapping loader yields a 256-entry array (0 meaning
no glyph); a parsed line `first last` covers the inclusive id range, writing
`first + k` (as `u16`) at codepoint `cp + k` and leaving the cursor advanced
by the range size, so consecutive codepoints starting at 32 are assigned in
range order across lines; in particular `"65 67"` assigns 65, 66, 67 to
codepoints 32, 33, 34, and `"70 0"` assigns 70 to codepoint 32 only. -/
theorem c9_hershey_mapping_ranges :
    (∀ file : List Char, (Hershey.load_mapping file).length = 256)
  ∧ (∀ (result : List Nat) (cp f l : Nat),
        (Hershey.applyRange result cp f l).2 = cp + (l + 1 - f))
  ∧ (∀ (result : List Nat) (cp f l k : Nat),
        result.length = 256 → f + k ≤ l → cp + k < 256 →
        ((Hershey.applyRange result cp f l).1).getD (cp + k) 0 = (f + k) % 65536)
  ∧ ((Hershey.load_mapping mapLine6567).getD 32 0 = 65
      ∧ (Hershey.load_mapping mapLine6567).getD 33 0 = 66
      ∧ (Hershey.load_mapping mapLine6567).getD 34 0 = 67
      ∧ (Hershey.load_mapping mapLine6567).getD 35 0 = 0
      ∧ (Hershey.load_mapping mapLine6567).getD 31 0 = 0
      ∧ (Hershey.load_mapping mapLine700).getD 32 0 = 70
      ∧ (Hershey.load_mapping mapLine700).getD 33 0 = 0) := by
  refine ⟨?_, ?_, ?_, ?_⟩
  · intro file
    rw [Hershey.load_mapping, loadMappingGo_length, List.length_replicate]
  · intro result cp f l
    exact applyRangeGo_snd (l + 1 - f) result cp f
  · intro result cp f l k hlen hk hcp
    exact applyRangeGo_getD (l + 1 - f) k result cp f hlen (by omega) hcp
  · decide

/-- Witness for C9: the advance and write of the range `65..=67` starting at
codepoint 32. -/
theorem c9_hershey_mapping_ranges_witness :
    (Hershey.applyRange (List.replicate 256 0) 32 65 67).2 = 32 + (67 + 1 - 65) ∧
      ((Hershey.applyRange (List.replicate 256 0) 32 65 67).1).getD (32 + 2) 0 =
        (65 + 2) % 65536 :=
  ⟨c9_hershey_mapping_ranges.2.1 (List.replicate 256 0) 32 65 67,
   c9_hershey_mapping_ranges.2.2.1 (List.replicate 256 0) 32 65 67 2
     (by decide) (by decide) (by decide)⟩

theorem idTransform_scale_x : Newstroke.idTransform.scale_x = 1 := rfl

theorem idTransform_scale_y : Newstroke.idTransform.scale_y = 1 := rfl

theorem idTransform_offset_y : Newstroke.idTransform.offset_y = 0 := rfl

theorem renderStroke_translate (ox oy : Int) :
    ∀ (s : List (Int × Int)) (first : Bool),
      Newstroke.renderStroke Newstroke.idTransform ox oy s first =
        (Newstroke.renderStroke Newstroke.idTransform 0 0 s first).map
          (fun p => { x := wrap8 (p.x + ox), y := wrap8 (p.y + oy), pen := p.pen }) := by
  intro s
  induction s with
  | nil => intro first; rfl
  | cons xy rest ih =>
    intro first
    obtain ⟨x, y⟩ := xy
    simp only [Newstroke.renderStroke, List.map_cons]
    rw [ih false]
    congr 1
    simp only [Newstroke.idTransform, Newstroke.BASE]
    rw [PackedPoint.mk.injEq]
    refine ⟨?_, ?_, rfl⟩
    · unfold wrap8; omega
    · unfold wrap8; omega

theorem render_glyph_translate (raw : Newstroke.Symbol) (ox oy : Int) :
    Newstroke.render_glyph raw Newstroke.idTransform ox oy =
      (Newstroke.render_glyph raw Newstroke.idTransform 0 0).map
        (fun p => { x := wrap8 (p.x + ox), y := wrap8 (p.y + oy), pen := p.pen }) := by
  unfold Newstroke.render_glyph
  induction raw.strokes with
  | nil => rfl
  | cons s rest ih =>
    simp only [List.flatMap_cons, List.map_append, ih, renderStroke_translate ox oy s true]

/-- Claim C8: when both references of a two-symbol composition carry the
identity transform and the named anchors resolve to `(bX, bY)` on the base
and `(aX, aY)` on the accent, the composed glyph renders the accent's points
translated (in `i8`) by `(bX - aX, bY - aY)` relative to the accent rendered
alone, and its side-bearings are `left = min(base.left, accent.left + ox)`
and `right = max(base.right, accent.right + ox)`. -/
theorem c8_compose_identity_offsets
    (font : List Char → Option Newstroke.Symbol)
    (a b aName accRef anch bName bKey : List Char)
    (accKey : Option (List Char)) (base acc : Newstroke.Symbol) (bX bY aX aY : Int)
    (hsa : Newstroke.split_transform a = (Newstroke.idTransform, aName))
    (hsb : splitnTwo b ' ' = (accRef, some anch))
    (hsacc : Newstroke.split_transform accRef = (Newstroke.idTransform, bName))
    (hfa : font aName = some base)
    (hfb : font bName = some acc)
    (hanch : splitnTwo anch '=' = (bKey, accKey))
    (hba : base.anchors.lookup bKey = some (bX, bY))
    (haa : acc.anchors.lookup (accKey.getD bKey) = some (aX, aY)) :
    Newstroke.compose_two font a b =
      some { left := min base.left (wrap8 (acc.left + wrap8 (bX - aX))),
             right := max base.right (wrap8 (acc.right + wrap8 (bX - aX))),
             strokes := Newstroke.render_glyph base Newstroke.idTransform 0 0
               ++ (Newstroke.render_glyph acc Newstroke.idTransform 0 0).map
                    (fun p => { x := wrap8 (p.x + wrap8 (bX - aX)),
                                y := wrap8 (p.y + wrap8 (bY - aY)), pen := p.pen }) } := by
  simp only [Newstroke.compose_two, hsa, hsb, hsacc, hfa, hfb,
    Newstroke.anchor_offset, hanch, hba, haa, Newstroke.transform_metrics,
    idTransform_scale_x, idTransform_scale_y, idTransform_offset_y, Option.getD_some,
    mul_one, add_zero, sub_zero, le_refl, zero_le_one, if_true, Option.some.injEq]
  rw [render_glyph_translate acc (wrap8 (bX - aX)) (wrap8 (bY - aY))]

/-- Witness for C8: composing the example base and accent symbols through
their `TOP` anchors at `(3, 5)` and `(1, 2)`. -/
theorem c8_compose_identity_offsets_witness :
    Newstroke.compose_two exFont basName accWithAnchor =
      some { left := min exBaseSym.left (wrap8 (exAccSym.left + wrap8 (3 - 1))),
             right := max exBaseSym.right (wrap8 (exAccSym.right + wrap8 (3 - 1))),
             strokes := Newstroke.render_glyph exBaseSym Newstroke.idTransform 0 0
               ++ (Newstroke.render_glyph exAccSym Newstroke.idTransform 0 0).map
                    (fun p => { x := wrap8 (p.x + wrap8 (3 - 1)),
                                y := wrap8 (p.y + wrap8 (5 - 2)), pen := p.pen }) } :=
  c8_compose_identity_offsets exFont basName accWithAnchor basName accName topName accName
    topName none exBaseSym exAccSym 3 5 1 2 (by decide) (by decide) (by decide) (by decide)
    (by decide) (by decide) (by decide) (by decide)
